import Mathlib

/-!
Verification development for `cdoc.c`, a minimalist documentation
generator for C.  The definitions below are a shallow embedding of the
comment-recognition and source-association engine of `src/cdoc.c`:
lines are lists of characters, the line store is a list of lines, and
the process-global scan cursor (`char** linep`) is represented by the
suffix of the line list still to be scanned, together with explicit
"advance" counts returned by every scanning loop (the number of slots
the C code moves the cursor forward, which can exceed the number of
remaining lines when the code walks past the NULL sentinel).
Process-terminating `errorf` calls are represented by `Except.error`.
-/

namespace Cdoc

/-- A text line: `text_to_lines` in cdoc.c turns the file into
NUL-terminated cstrings with no embedded newline; here a line is its
list of characters. -/
abbrev Line := List Char

/-- `is_hspace` (cdoc.c): `'\t'`, `'\r'` and `' '` are horizontal
whitespace. -/
def is_hspace (c : Char) : Bool :=
  c == '\t' || c == '\r' || c == ' '

/-- `is_doc_comment` (cdoc.c): true iff after skipping leading
horizontal whitespace the line begins with `/*!` (the `strncmp` with
length 3). -/
def is_doc_comment (line : Line) : Bool :=
  (line.dropWhile is_hspace).take 3 == ['/', '*', '!']

/-- `clean_doc_line` (cdoc.c): skip leading horizontal whitespace, then
an optional `'*'`, and if the `'*'` was present skip one following
horizontal-whitespace character. -/
def clean_doc_line (line : Line) : Line :=
  match line.dropWhile is_hspace with
  | '*' :: rest =>
    match rest with
    | c :: rest2 => if is_hspace c then rest2 else c :: rest2
    | [] => []
  | other => other

/-- The test `*cleaned_line == '@'` performed by the section loop of
`parse_doc` (cdoc.c line 583): does the cleaned line open a tag? -/
def starts_tag (l : Line) : Bool :=
  match clean_doc_line l with
  | '@' :: _ => true
  | _ => false

/-- `strstr` (as used by `parse_doc`): split a line at the first
occurrence of `pat`, returning the part strictly before the occurrence
and the part strictly after it; `none` when `pat` does not occur.
(Both patterns used by cdoc.c, `/*!` and `*/`, are non-empty.) -/
def split_first (pat : List Char) : List Char → Option (List Char × List Char)
  | [] => none
  | c :: cs =>
    if pat.isPrefixOf (c :: cs) then some ([], (c :: cs).drop pat.length)
    else
      match split_first pat cs with
      | some p => some (c :: p.1, p.2)
      | none => none

/-- The error conditions of cdoc.c that terminate the process through
`errorf`.  `emptyTag`, `trailingChars` and `beginsAtTag` carry the
index (into the temporary `block_lines` buffer) of `*text_body_p` at
the moment of the error — the quantity from which the reported
"line number" is computed, see `reported_lineno`. -/
inductive Err where
  | emptyTag (blockIdx : Nat)
  | trailingChars (blockIdx : Nat)
  | beginsAtTag (blockIdx : Nat)
  | internalNonDoc
deriving DecidableEq

/-- One `struct section` of cdoc.c: the tag slice, the name slice
(empty means "no name") and the body lines (raw block lines, cleaned
only at print time — exactly like `text_start`/`text_len`). -/
structure Section where
  tag : Line
  name : Line
  text : List Line
deriving DecidableEq

/-- One `struct doc` of cdoc.c: the parsed sections and the associated
source span; `none` models the `NULL` source pointer ("no associated
source code"). -/
structure Doc where
  sections : List Section
  source : Option (List Line)
deriving DecidableEq

/-- Models `LINENO(lines_begin, *text_body_p)` as invoked by
`parse_section` (cdoc.c lines 651-657): `*text_body_p` points at entry
`blockIdx` of the heap-allocated `block_lines` buffer while
`lines_begin` points at entry 0 of the file's `lines` array, so the
pointer subtraction evaluates to `blockIdx` plus the allocator-dependent
offset `delta` between the two distinct allocations (in units of
`char*`).  `delta` is unknowable from the program text; the computed
value is `delta + blockIdx + 1`, which does not depend on where in the
file the documentation block sits. -/
def reported_lineno (delta : Int) (blockIdx : Nat) : Int :=
  delta + blockIdx + 1

/-- The inner per-character loop of `parse_struct_source` (cdoc.c
lines 469-475): thread the signed brace counter over every character
(`brackets += *cp == '{'; brackets -= *cp == '}'`) and record whether a
`';'` was seen while the updated counter is exactly zero.  Returns the
final counter and the stop flag. -/
def struct_scan : Int → List Char → Int × Bool
  | b, [] => (b, false)
  | b, c :: cs =>
    let b1 := b + (if c = '{' then 1 else 0) - (if c = '}' then 1 else 0)
    let r := struct_scan b1 cs
    (r.1, if b1 = 0 ∧ c = ';' then true else r.2)

/-- The line loop of `parse_struct_source` (cdoc.c lines 465-476):
capture lines one at a time, stopping at (and including) the first line
whose character scan reports a depth-zero `';'`.  Returns the captured
lines and the cursor advance; at end of input the loop exits without
the post-body increment, so the advance equals the number of remaining
lines. -/
def struct_loop : List Line → Int → List Line → List Line × Nat
  | [], _, acc => (acc, 0)
  | l :: rest, b, acc =>
    let sc := struct_scan b l
    if sc.2 then (acc ++ [l], 1)
    else
      let r := struct_loop rest sc.1 (acc ++ [l])
      (r.1, r.2 + 1)

/-- `parse_struct_source` (cdoc.c): aggregate-declaration capture,
entered at the current cursor (`rem` is the suffix of the line store
from the cursor). -/
def parse_struct_source (rem : List Line) : List Line × Nat :=
  struct_loop rem 0 []

/-- The synthetic line injected by `parse_function_source` in place of
a function body (cdoc.c line 502). -/
def placeholder_line : Line := "/* function definition... */".data

/-- The inner per-character loop of `parse_function_source` (cdoc.c
lines 494-507): a `';'` stops the scan of the line immediately; each
`'{'` marks the capture as finished and appends one synthetic
placeholder line, but scanning of the line continues.  Returns whether
the capture is finished after this line and how many placeholder lines
were appended (one per `'{'` seen before the first `';'`). -/
def function_scan : List Char → Bool × Nat
  | [] => (false, 0)
  | c :: cs =>
    if c = ';' then (true, 0)
    else if c = '{' then (true, (function_scan cs).2 + 1)
    else function_scan cs

/-- The line loop of `parse_function_source` (cdoc.c lines 490-508):
each line is captured, then its placeholders (if any) are appended; the
loop stops after the first line containing a `';'` or `'{'`. -/
def function_loop : List Line → List Line → List Line × Nat
  | [], acc => (acc, 0)
  | l :: rest, acc =>
    let fs := function_scan l
    let acc2 := (acc ++ [l]) ++ List.replicate fs.2 placeholder_line
    if fs.1 then (acc2, 1)
    else
      let r := function_loop rest acc2
      (r.1, r.2 + 1)

/-- `parse_function_source` (cdoc.c): function-kind capture. -/
def parse_function_source (rem : List Line) : List Line × Nat :=
  function_loop rem []

/-- The character read by `(**linepp)[strlen(**linepp) - 1]` in
`parse_macro_source` (cdoc.c line 525), as a bounds-checked lookup:
for a zero-length line the index is `-1`, outside the line, and the
lookup is `none`. -/
def last_char_opt (l : Line) : Option Char := l.getLast?

/-- The stop test of `parse_macro_source`: `parsed` is set when the
last character of the captured line is not a backslash.  For an empty
line the C index `strlen - 1 = -1` reads the byte immediately before
the line; in the buffer built by `text_to_lines` every line the macro
scanner can reach (cursor at least 1) is immediately preceded by the
NUL byte that replaced the previous newline, so the byte read is
`'\0'`, which differs from `'\\'` and therefore stops the capture —
this is the `none` branch below. -/
def mac_stop (l : Line) : Bool :=
  match last_char_opt l with
  | some c => if c = '\\' then false else true
  | none => true

/-- The line loop of `parse_macro_source` (cdoc.c lines 522-526):
capture lines one at a time, stopping at (and including) the first
captured line whose last character is not a backslash. -/
def mac_loop : List Line → List Line → List Line × Nat
  | [], acc => (acc, 0)
  | l :: rest, acc =>
    if mac_stop l then (acc ++ [l], 1)
    else
      let r := mac_loop rest (acc ++ [l])
      (r.1, r.2 + 1)

/-- `parse_macro_source` (cdoc.c): macro-kind capture. -/
def parse_macro_source (rem : List Line) : List Line × Nat :=
  mac_loop rem []

/-- The comment-collection loop of `parse_doc` (cdoc.c lines 557-573),
entered when the opening line did not contain `*/`: collect whole lines
(truncated at `*/` when found) until the terminator or end of input.
Returns the collected lines and the cursor advance measured from the
loop entry.  Note the unconditional `*linepp += 1` after the loop
(line 573) runs even when the loop stopped because `**linepp` was the
NULL sentinel, which is why the advance is `1` even for an empty
suffix — the cursor is pushed one slot past the sentinel. -/
def collect_rest : List Line → List Line → List Line × Nat
  | [], acc => (acc, 1)
  | cur :: rest, acc =>
    match split_first ['*', '/'] cur with
    | some p => (acc ++ [p.1], 1)
    | none =>
      let r := collect_rest rest (acc ++ [cur])
      (r.1, r.2 + 1)

/-- The block-collection phase of `parse_doc` (cdoc.c lines 543-577):
find `/*!` on the current line, take the content after it, truncate at
`*/` if present (single-line block), otherwise collect subsequent lines
with `collect_rest`.  Returns the block lines and the cursor advance.
The `internalNonDoc` errors model the `errorf` on a line without `/*!`
and the undefined dereference of the NULL sentinel — both unreachable
when the caller has checked `is_doc_comment`. -/
def collect_block : List Line → Except Err (List Line × Nat)
  | [] => Except.error Err.internalNonDoc
  | first :: rest =>
    match split_first ['/', '*', '!'] first with
    | none => Except.error Err.internalNonDoc
    | some p =>
      match split_first ['*', '/'] p.2 with
      | some q => Except.ok ([q.1], 1)
      | none =>
        let r := collect_rest rest [p.2]
        Except.ok (r.1, r.2 + 1)

/-- `parse_section` (cdoc.c lines 645-698) applied to the cleaned tag
line at index `i` of the block-lines buffer, with `brest` the block
lines after it: parse the tag token (failing with `EmptyTag` when
nothing or whitespace follows `'@'`), the optional name token (failing
with `TrailingCharacters` when non-whitespace remains after it), and
take as body the following block lines up to the next tag line.
Returns the section and the body length (the amount `*text_body_p`
moved beyond `i + 1`). -/
def parse_section (i : Nat) (cleaned : Line) (brest : List Line) :
    Except Err (Section × Nat) :=
  match cleaned with
  | '@' :: cp =>
    match cp with
    | [] => Except.error (Err.emptyTag i)
    | c :: _ =>
      if is_hspace c then Except.error (Err.emptyTag i)
      else
        let tag := cp.takeWhile (fun x => !is_hspace x)
        let r1 := (cp.dropWhile (fun x => !is_hspace x)).dropWhile is_hspace
        let name := r1.takeWhile (fun x => !is_hspace x)
        let r2 := (r1.dropWhile (fun x => !is_hspace x)).dropWhile is_hspace
        if r2 = [] then
          let body := brest.takeWhile (fun l => !starts_tag l)
          Except.ok (⟨tag, name, body⟩, body.length)
        else Except.error (Err.trailingChars i)
  | _ => Except.error (Err.beginsAtTag i)

/-- The section loop of `parse_doc` (cdoc.c lines 580-589): walk the
collected block lines, opening a new section at every line whose
cleaned content starts with `'@'` and skipping other lines.  `i` is the
index of the current line within the block-lines buffer (the value of
`current_line_p - block_lines`).  The `fuel` argument only bounds the
recursion; every caller passes at least `block.length + 1`, which the
loop can never exhaust since each step consumes at least one line. -/
def parse_sections : Nat → Nat → List Line → List Section →
    Except Err (List Section)
  | 0, _, _, acc => Except.ok acc
  | _ + 1, _, [], acc => Except.ok acc
  | fuel + 1, i, cur :: brest, acc =>
    if starts_tag cur then
      match parse_section i (clean_doc_line cur) brest with
      | Except.error e => Except.error e
      | Except.ok (s, blen) =>
        parse_sections fuel (i + 1 + blen) (brest.drop blen) (acc ++ [s])
    else parse_sections fuel (i + 1) brest acc

/-- `parse_doc` (cdoc.c lines 533-625): collect the block, parse its
sections, and—when at least one section exists—dispatch on the first
section's tag (`struct`/`union`/`enum`/`typedef`/`variable` →
aggregate capture, `function` → function capture, `macro` → macro
capture, anything else → no source).  A doc with zero sections is
returned as-is (cdoc.c line 606).  The returned `Nat` is the total
cursor advance. -/
def parse_doc (rem : List Line) : Except Err (Doc × Nat) :=
  match collect_block rem with
  | Except.error e => Except.error e
  | Except.ok (block, adv1) =>
    match parse_sections (block.length + 1) 0 block [] with
    | Except.error e => Except.error e
    | Except.ok secs =>
      match secs with
      | [] => Except.ok (⟨[], none⟩, adv1)
      | s0 :: _ =>
        let after := rem.drop adv1
        if s0.tag = "struct".data ∨ s0.tag = "union".data
            ∨ s0.tag = "enum".data ∨ s0.tag = "typedef".data
            ∨ s0.tag = "variable".data then
          let r := parse_struct_source after
          Except.ok (⟨secs, some r.1⟩, adv1 + r.2)
        else if s0.tag = "function".data then
          let r := parse_function_source after
          Except.ok (⟨secs, some r.1⟩, adv1 + r.2)
        else if s0.tag = "macro".data then
          let r := parse_macro_source after
          Except.ok (⟨secs, some r.1⟩, adv1 + r.2)
        else Except.ok (⟨secs, none⟩, adv1)

/-- The parse loop of `do_file` (cdoc.c lines 433-440): at each line,
either enter `parse_doc` (when `is_doc_comment` holds) and append the
resulting doc — unconditionally, whatever its section count — or
advance the cursor by one.  `fuel` bounds the recursion; callers pass
`lines.length + 1`, which cannot be exhausted because `parse_doc`
always advances the cursor by at least one. -/
def do_file_loop : Nat → List Line → List Doc → Except Err (List Doc)
  | 0, _, docs => Except.ok docs
  | _ + 1, [], docs => Except.ok docs
  | fuel + 1, l :: rest, docs =>
    if is_doc_comment l then
      match parse_doc (l :: rest) with
      | Except.error e => Except.error e
      | Except.ok (d, adv) => do_file_loop fuel ((l :: rest).drop adv) (docs ++ [d])
    else do_file_loop fuel rest docs

/-- `do_file` (cdoc.c), restricted to its parse phase: the ordered doc
sequence produced for one input file given as its line list.
`Except.error` is a process exit with `EXIT_FAILURE`; `Except.ok` means
the file was processed to completion (exit status 0 for the run). -/
def do_file (lines : List Line) : Except Err (List Doc) :=
  do_file_loop (lines.length + 1) lines []

/-- An input source of `main` (cdoc.c): standard input or a named
file. -/
inductive CInput where
  | stdin
  | file (name : String)
deriving DecidableEq

/-- An externally visible step taken by `main`'s argument loop:
`usage()` or `version()` (which terminate the process with success), or
opening and processing one input. -/
inductive Action where
  | usageExit
  | versionExit
  | openAndDo (i : CInput)
deriving DecidableEq

/-- The argument loop of `main` (cdoc.c lines 258-280): `--help` and
`--version` are recognized only while option parsing is on and
terminate the process; `--` switches option parsing off; every other
argument is opened and processed — as standard input only when it is
exactly `-` *and* option parsing has been switched off, otherwise as a
file named by the argument.  The list is the sequence of actions in
order; falling off the end is `return EXIT_SUCCESS`. -/
def main_actions : Bool → List String → List Action
  | _, [] => []
  | popt, arg :: rest =>
    if popt ∧ arg = "--help" then [Action.usageExit]
    else if popt ∧ arg = "--version" then [Action.versionExit]
    else if popt ∧ arg = "--" then main_actions false rest
    else
      let inp := if arg = "-" ∧ ¬ popt then CInput.stdin else CInput.file arg
      Action.openAndDo inp :: main_actions popt rest

/-- Follows the spec's words (§4.3, macro kind): the index of the first
line that does not end with a line-continuation backslash as its last
character; `none` when every line does. -/
def spec_mac_stop_index : List Line → Option Nat
  | [] => none
  | l :: rest =>
    if l.getLast? = some '\\' then (spec_mac_stop_index rest).map (fun k => k + 1)
    else some 0

/-- Follows the spec's words (§4.3, aggregate kind): the index of the
first line in which a `';'` occurs while the signed brace depth —
incremented on `'{'`, decremented on `'}'`, updated over every
character and threaded across lines starting from `b` — is exactly
zero; `none` when no such line exists. -/
def spec_struct_stop_index : Int → List Line → Option Nat
  | _, [] => none
  | b, l :: rest =>
    if (struct_scan b l).2 then some 0
    else (spec_struct_stop_index (struct_scan b l).1 rest).map (fun k => k + 1)

/-- Follows the spec's words: starting from depth `b`, no line of the
list contains a `';'` at brace depth zero (the aggregate capture's stop
condition is never met). -/
def spec_struct_no_stop : Int → List Line → Bool
  | _, [] => true
  | b, l :: rest =>
    if (struct_scan b l).2 then false else spec_struct_no_stop (struct_scan b l).1 rest

/-- The macro capture stops at, and includes, exactly the first line
whose last character is not a backslash (stated over the loop with its
accumulator). -/
theorem mac_loop_spec : ∀ (rem : List Line) (k : Nat) (acc : List Line),
    spec_mac_stop_index rem = some k →
    mac_loop rem acc = (acc ++ rem.take (k + 1), k + 1) := by
  intro rem
  induction rem with
  | nil => intro k acc h; simp [spec_mac_stop_index] at h
  | cons l rest ih =>
    intro k acc h
    rw [spec_mac_stop_index] at h
    by_cases hb : l.getLast? = some '\\'
    · rw [if_pos hb] at h
      obtain ⟨k1, hk1, hkk⟩ := Option.map_eq_some'.mp h
      have hstop : mac_stop l = false := by
        rw [mac_stop, last_char_opt, hb]; simp
      subst hkk
      simp only [mac_loop, hstop, Bool.false_eq_true, if_false]
      rw [ih k1 (acc ++ [l]) hk1]
      simp [List.append_assoc]
    · rw [if_neg hb] at h
      have hk : k = 0 := by cases h; rfl
      subst hk
      have hstop : mac_stop l = true := by
        rw [mac_stop, last_char_opt]
        cases hgl : l.getLast? with
        | none => rfl
        | some c =>
          have hc : ¬ c = '\\' := by rintro rfl; exact hb hgl
          simp [hc]
      simp [mac_loop, hstop]

/-- The aggregate capture stops at, and includes, exactly the first
line containing a depth-zero `';'` (stated over the loop with its
accumulator and running depth). -/
theorem struct_loop_spec : ∀ (rem : List Line) (b : Int) (k : Nat) (acc : List Line),
    spec_struct_stop_index b rem = some k →
    struct_loop rem b acc = (acc ++ rem.take (k + 1), k + 1) := by
  intro rem
  induction rem with
  | nil => intro b k acc h; simp [spec_struct_stop_index] at h
  | cons l rest ih =>
    intro b k acc h
    rw [spec_struct_stop_index] at h
    by_cases hs : (struct_scan b l).2
    · rw [if_pos hs] at h
      have hk : k = 0 := by cases h; rfl
      subst hk
      simp [struct_loop, hs]
    · rw [if_neg hs] at h
      obtain ⟨k1, hk1, hkk⟩ := Option.map_eq_some'.mp h
      subst hkk
      have hs' : (struct_scan b l).2 = false := by simpa using hs
      simp only [struct_loop, hs', Bool.false_eq_true, if_false]
      rw [ih (struct_scan b l).1 k1 (acc ++ [l]) hk1]
      simp [List.append_assoc]

/-- When the stop condition is never met, the aggregate capture
consumes and returns every remaining line, advancing the cursor exactly
to the end of input (no overrun, and no error). -/
theorem struct_loop_no_stop : ∀ (rem : List Line) (b : Int) (acc : List Line),
    spec_struct_no_stop b rem = true →
    struct_loop rem b acc = (acc ++ rem, rem.length) := by
  intro rem
  induction rem with
  | nil => intro b acc _; simp [struct_loop]
  | cons l rest ih =>
    intro b acc h
    rw [spec_struct_no_stop] at h
    by_cases hs : (struct_scan b l).2
    · rw [if_pos hs] at h; cases h
    · rw [if_neg hs] at h
      have hs' : (struct_scan b l).2 = false := by simpa using hs
      simp only [struct_loop, hs', Bool.false_eq_true, if_false]
      rw [ih (struct_scan b l).1 (acc ++ [l]) h]
      simp [List.append_assoc]

/-- A line on which the function-kind character scan does not finish
the capture contributes no placeholder lines. -/
theorem function_scan_no_stop_count : ∀ l : List Char,
    (function_scan l).1 = false → (function_scan l).2 = 0 := by
  intro l
  induction l with
  | nil => intro _; rfl
  | cons c cs ih =>
    intro h
    rw [function_scan] at h ⊢
    by_cases h1 : c = ';'
    · simp [h1] at h
    · by_cases h2 : c = '{'
      · simp [h1, h2] at h
      · simp only [h1, h2, if_false] at h ⊢
        exact ih h

/-- The number of placeholder lines the function-kind scan appends for
one line is the number of `'{'` characters preceding the first `';'`
on that line. -/
theorem function_scan_count : ∀ l : List Char,
    (function_scan l).2 =
      ((l.takeWhile (fun c => !(c == ';'))).filter (fun c => c == '{')).length := by
  intro l
  induction l with
  | nil => rfl
  | cons c cs ih =>
    rw [function_scan]
    by_cases h1 : c = ';'
    · simp [h1, List.takeWhile]
    · by_cases h2 : c = '{'
      · simp only [h1, if_false, h2, if_true]
        simp [List.takeWhile_cons, List.filter, h1, h2, ih]
      · simp only [h1, h2, if_false]
        simp [List.takeWhile_cons, List.filter, h1, h2, ih]

/-- The function capture scans lines one at a time; the first line on
which the character scan finishes ends the capture: the captured span
is all scanned lines followed by that line's placeholders, and the
cursor resumes immediately after that line. -/
theorem function_loop_spec : ∀ (pre : List Line) (l : Line) (rest acc : List Line),
    (∀ p ∈ pre, (function_scan p).1 = false) → (function_scan l).1 = true →
    function_loop (pre ++ l :: rest) acc =
      (acc ++ pre ++ [l] ++ List.replicate (function_scan l).2 placeholder_line,
        pre.length + 1) := by
  intro pre
  induction pre with
  | nil =>
    intro l rest acc _ hl
    simp only [List.nil_append, function_loop, hl, if_true]
    simp [List.append_assoc]
  | cons p ps ih =>
    intro l rest acc hpre hl
    have hp : (function_scan p).1 = false := hpre p (by simp)
    have hp2 : (function_scan p).2 = 0 := function_scan_no_stop_count p hp
    simp only [List.cons_append, function_loop, hp, hp2, Bool.false_eq_true, if_false,
      List.replicate, List.append_nil, List.append_eq]
    rw [ih l rest (acc ++ [p]) (fun q hq => hpre q (by simp [hq])) hl]
    simp [List.append_assoc]

/-- The section loop only ever appends to its accumulator: the final
section list extends the accumulator it was started with. -/
theorem parse_sections_extends : ∀ (fuel i : Nat) (brem : List Line)
    (acc res : List Section),
    parse_sections fuel i brem acc = Except.ok res → ∃ t, res = acc ++ t := by
  intro fuel
  induction fuel with
  | zero =>
    intro i brem acc res h
    rw [parse_sections] at h
    cases h
    exact ⟨[], by simp⟩
  | succ fuel ih =>
    intro i brem acc res h
    cases brem with
    | nil =>
      rw [parse_sections] at h
      cases h
      exact ⟨[], by simp⟩
    | cons cur brest =>
      rw [parse_sections] at h
      by_cases hst : starts_tag cur
      · rw [if_pos hst] at h
        cases hps : parse_section i (clean_doc_line cur) brest with
        | error e => rw [hps] at h; cases h
        | ok sb =>
          rw [hps] at h
          obtain ⟨t, ht⟩ := ih _ _ _ _ h
          exact ⟨sb.1 :: t, by simpa [List.append_assoc] using ht⟩
      · rw [if_neg hst] at h
        exact ih _ _ _ _ h

/-- Started with an empty accumulator and adequate fuel, the section
loop returns the empty section list exactly when no line of the block
opens a tag (its cleaned content never starts with `'@'`). -/
theorem parse_sections_empty_iff : ∀ (brem : List Line) (fuel i : Nat),
    brem.length < fuel →
    (parse_sections fuel i brem [] = Except.ok [] ↔
      ∀ l ∈ brem, starts_tag l = false) := by
  intro brem
  induction brem with
  | nil =>
    intro fuel i hf
    constructor
    · intro _ l hl; cases hl
    · intro _
      match fuel, hf with
      | fuel + 1, _ => rw [parse_sections]
  | cons cur brest ih =>
    intro fuel i hf
    match fuel, hf with
    | fuel + 1, hf =>
      rw [parse_sections]
      by_cases hst : starts_tag cur
      · rw [if_pos hst]
        constructor
        · intro h
          cases hps : parse_section i (clean_doc_line cur) brest with
          | error e => rw [hps] at h; cases h
          | ok sb =>
            rw [hps] at h
            obtain ⟨t, ht⟩ := parse_sections_extends _ _ _ _ _ h
            simp at ht
        · intro hall
          exact absurd (hall cur (by simp)) (by simp [hst])
      · rw [if_neg hst]
        have hlen : brest.length < fuel := by
          have := Nat.lt_of_succ_lt_succ (by simpa using hf)
          simpa using this
        rw [ih fuel (i + 1) hlen]
        constructor
        · intro h l hl
          rcases List.mem_cons.mp hl with rfl | hl'
          · simpa using hst
          · exact h l hl'
        · intro h l hl
          exact h l (by simp [hl])

/-- A doc whose section list is empty never has associated source:
`parse_doc` returns it before the tag dispatch (cdoc.c line 606). -/
theorem parse_doc_empty_sections_no_source :
    ∀ (rem : List Line) (d : Doc) (adv : Nat),
      parse_doc rem = Except.ok (d, adv) → d.sections = [] → d.source = none := by
  intro rem d adv h hs
  rw [parse_doc] at h
  cases hc : collect_block rem with
  | error e => rw [hc] at h; cases h
  | ok p =>
    obtain ⟨block, adv1⟩ := p
    rw [hc] at h
    dsimp only at h
    cases hp : parse_sections (block.length + 1) 0 block [] with
    | error e => rw [hp] at h; cases h
    | ok secs =>
      rw [hp] at h
      cases secs with
      | nil =>
        dsimp only at h
        cases h; rfl
      | cons s0 srest =>
        dsimp only at h
        split_ifs at h <;> · cases h; simp at hs

/-- The parsed doc's section list is empty exactly when no collected
block line opens a tag. -/
theorem parse_doc_sections_iff :
    ∀ (rem block : List Line) (adv1 : Nat) (d : Doc) (adv : Nat),
      collect_block rem = Except.ok (block, adv1) →
      parse_doc rem = Except.ok (d, adv) →
      (d.sections = [] ↔ ∀ l ∈ block, starts_tag l = false) := by
  intro rem block adv1 d adv hc h
  rw [parse_doc, hc] at h
  dsimp only at h
  cases hp : parse_sections (block.length + 1) 0 block [] with
  | error e => rw [hp] at h; cases h
  | ok secs =>
    rw [hp] at h
    have hsecs : d.sections = secs := by
      cases secs with
      | nil =>
        dsimp only at h
        cases h; rfl
      | cons s0 srest =>
        dsimp only at h
        split_ifs at h <;> · cases h; rfl
    rw [hsecs]
    rw [← parse_sections_empty_iff block (block.length + 1) 0 (by omega)]
    constructor
    · intro he; rw [he] at hp; exact hp
    · intro he; rw [hp] at he; cases he; rfl

/-- A one-line file whose doc comment is never terminated. -/
def exU : List Line := ["/*! x".data]

/-- A one-line file whose doc block's tag line is a bare `@`. -/
def exA : List Line := ["/*! @ */".data]

/-- The same bare-`@` block, now on file line 2. -/
def exB : List Line := ["int x;".data, "/*! @ */".data]

/-- An `@struct` block whose declaration never reaches a depth-zero
`;` before end of input. -/
def ex4 : List Line := ["/*! @struct foo */".data, "struct foo \x7b".data]

/-- A recognized doc block containing no tag line at all. -/
def ex5 : List Line := ["/*! hello */".data]

/-- An `@function` block whose opening line contains two `{`. -/
def ex6 : List Line := ["/*! @function f */".data, "void f() \x7b\x7b".data]

/-- The spec's three-line aggregate example. -/
def ex7 : List Line := ["struct foo \x7b".data, "  int x;".data, "\x7d;".data]

/-- The spec's two-line macro example (the first line ends in a
backslash). -/
def ex8 : List Line := ["#define X(a) \\".data, "  (a + 1)".data]

/-- An `@macro` block followed by an empty line. -/
def ex10 : List Line := ["/*! @macro M */".data, "".data]

/-- C1: a documentation block whose tag line is a bare `@` fails with
the EmptyTag error, but the error's index is the line's position
inside the temporary block-lines buffer (0 for both runs below), while
the offending line is file line 1 in the first input and file line 2
in the second; the number printed by `errorf` is
`reported_lineno delta 0 = delta + 1` for the unknowable allocation
offset `delta` — a pointer difference between two distinct heap
arrays, not the 1-indexed file line number required by `LINENO`'s own
contract ("two pointers to lines in the file"). -/
theorem c1_lineno_behavior :
    do_file exA = Except.error (Err.emptyTag 0) ∧
    do_file exB = Except.error (Err.emptyTag 0) ∧
    (∀ delta : Int, reported_lineno delta 0 = delta + 1) := by
  refine ⟨rfl, rfl, fun delta => ?_⟩
  simp [reported_lineno]

/-- C2: a `/*!` block that reaches end of input without `*/` does NOT
fail: cdoc.c has no UnterminatedComment error; the collection loop
consumes the remaining lines, the cursor is pushed past the NULL
sentinel, and the file completes successfully (exit status 0) with the
block's contents silently swallowed into a sectionless doc. -/
theorem c2_unterminated_behavior :
    do_file exU = Except.ok [⟨[], none⟩] := rfl

/-- C3: invoked with zero file arguments, main's argument loop runs
zero times: no input is opened or processed — in particular standard
input is never read — and the program falls through to
`return EXIT_SUCCESS` with empty output.  Standard input is reachable
only through the argument `-` placed after `--` (second conjunct). -/
theorem c3_no_args_reads_nothing :
    main_actions true [] = [] ∧
    main_actions false ["-"] = [Action.openAndDo CInput.stdin] := by decide

/-- C4 counterexample: an `@struct` block whose declaration reaches end
of input with no depth-zero `;` completes successfully — `do_file`
returns `Except.ok` (exit status 0) with the truncated span captured —
refuting the claim that the program exits with non-zero status. -/
theorem c4_cex :
    do_file ex4 =
      Except.ok [⟨[⟨"struct".data, "foo".data, []⟩],
        some ["struct foo \x7b".data]⟩] := rfl

/-- C4 (amended): when an aggregate capture reaches end of input
before a line containing a `;` at brace depth zero, it silently
returns the truncated span — all remaining lines — and leaves the
cursor at end of input; no error is raised, so the program completes
with exit status 0 (the lenient variant of §4.3). -/
theorem c4_amended :
    ∀ rem : List Line, spec_struct_no_stop 0 rem = true →
      parse_struct_source rem = (rem, rem.length) := by
  intro rem h
  unfold parse_struct_source
  rw [struct_loop_no_stop rem 0 [] h]
  simp

/-- C4 witness: the amended theorem applied to the concrete
declaration suffix of `ex4`. -/
theorem c4_amended_witness :
    parse_struct_source ["struct foo \x7b".data] = (["struct foo \x7b".data], 1) :=
  c4_amended ["struct foo \x7b".data] (by decide)

/-- C5 counterexample: a recognized `/*!` block containing no tag line
produces a Document with zero sections, and `do_file` appends it to
the file's document sequence — refuting the claim that such a Document
is never constructed or added. -/
theorem c5_cex : do_file ex5 = Except.ok [⟨[], none⟩] := rfl

/-- C5 (amended): a Document's `sections` can be empty — exactly when
no line of the collected block opens a tag — and such a Document is
still appended to the file's sequence; it never carries associated
source, since `parse_doc` returns it before the tag dispatch. -/
theorem c5_amended :
    (∀ (rem : List Line) (d : Doc) (adv : Nat),
        parse_doc rem = Except.ok (d, adv) → d.sections = [] → d.source = none) ∧
    (∀ (rem block : List Line) (adv1 : Nat) (d : Doc) (adv : Nat),
        collect_block rem = Except.ok (block, adv1) →
        parse_doc rem = Except.ok (d, adv) →
        (d.sections = [] ↔ ∀ l ∈ block, starts_tag l = false)) :=
  ⟨parse_doc_empty_sections_no_source, parse_doc_sections_iff⟩

/-- C5 witness: the amended theorem at the concrete input `ex5`, whose
collected block is the single untagged line `" hello "`. -/
theorem c5_amended_witness :
    ((⟨[], none⟩ : Doc).sections = [] ↔
      ∀ l ∈ [" hello ".data], starts_tag l = false) :=
  c5_amended.2 ex5 [" hello ".data] 1 ⟨[], none⟩ 1 rfl rfl

/-- C6 counterexample: a function capture whose opening line contains
two `{` (both before any `;`) captures the opening line followed by
TWO synthetic placeholder lines — refuting "exactly one synthetic
placeholder line and nothing else". -/
theorem c6_cex :
    do_file ex6 =
      Except.ok [⟨[⟨"function".data, "f".data, []⟩],
        some ["void f() \x7b\x7b".data, placeholder_line, placeholder_line]⟩] := rfl

/-- C6 (amended): for every function-kind capture, the captured span
consists of the scanned lines up to and including the first line
containing a `{` or `;`, followed by one synthetic placeholder line
per `{` preceding the first `;` on that line; the function body lines
are never captured, and the cursor resumes immediately after that
line. -/
theorem c6_amended :
    (∀ (pre : List Line) (l : Line) (rest : List Line),
        (∀ p ∈ pre, (function_scan p).1 = false) → (function_scan l).1 = true →
        parse_function_source (pre ++ l :: rest) =
          (pre ++ [l] ++ List.replicate (function_scan l).2 placeholder_line,
            pre.length + 1)) ∧
    (∀ l : Line, (function_scan l).2 =
      ((l.takeWhile (fun c => !(c == ';'))).filter (fun c => c == '{')).length) := by
  constructor
  · intro pre l rest hpre hl
    unfold parse_function_source
    rw [function_loop_spec pre l rest [] hpre hl]
    simp
  · exact function_scan_count

/-- C6 witness: the amended theorem at the concrete opening line of
`ex6`, which contains two `{`: two placeholders are injected and the
cursor advances exactly one line. -/
theorem c6_amended_witness :
    parse_function_source ["void f() \x7b\x7b".data] =
      (["void f() \x7b\x7b".data, placeholder_line, placeholder_line], 1) :=
  c6_amended.1 [] ("void f() \x7b\x7b".data) [] (by simp) (by decide)

/-- C7: the aggregate capture examines lines one at a time, updating a
signed brace counter over every character (`struct_scan`), and stops
at — and includes — exactly the first line in which a `;` occurs while
the depth is zero; in particular the three lines `struct foo {`,
`  int x;`, `};` are all captured and the capture stops at the third
line. -/
theorem c7_aggregate_capture :
    (∀ (rem : List Line) (k : Nat), spec_struct_stop_index 0 rem = some k →
        parse_struct_source rem = (rem.take (k + 1), k + 1)) ∧
    parse_struct_source ex7 = (ex7, 3) ∧
    spec_struct_stop_index 0 ex7 = some 2 := by
  refine ⟨?_, by decide, by decide⟩
  intro rem k h
  unfold parse_struct_source
  rw [struct_loop_spec rem 0 k [] h]
  simp

/-- C7 witness: the general characterization applied to the concrete
three-line aggregate of the spec's example. -/
theorem c7_aggregate_capture_witness :
    parse_struct_source ex7 = (ex7.take 3, 3) :=
  c7_aggregate_capture.1 ex7 2 (by decide)

/-- C8: the macro capture continues exactly as long as each captured
line ends with a backslash as its last character, stopping at and
including the first line that does not; an empty line does not end in
a backslash (the byte the `strlen - 1` index reads is the preceding
NUL terminator), so it ends the capture (second conjunct). -/
theorem c8_macro_capture :
    (∀ (rem : List Line) (k : Nat), spec_mac_stop_index rem = some k →
        parse_macro_source rem = (rem.take (k + 1), k + 1)) ∧
    parse_macro_source [[], "x".data] = ([[]], 1) := by
  refine ⟨?_, by decide⟩
  intro rem k h
  unfold parse_macro_source
  rw [mac_loop_spec rem k [] h]
  simp

/-- C8 witness: the characterization applied to the spec's two-line
macro example (the first line ends in a backslash, the second does
not): both lines are captured and the cursor advances past both. -/
theorem c8_macro_capture_witness :
    parse_macro_source ex8 = (ex8.take 2, 2) :=
  c8_macro_capture.1 ex8 1 (by decide)

/-- C9: the cursor bound `[0, length]` is violated: on the single-line
input `/*! x` (length 1, an unterminated block) the line is recognized
as a doc comment, and `parse_doc` advances the cursor by 2 from
position 0, taking it to 2 = length + 1 — one slot past the NULL
sentinel of the line array. -/
theorem c9_cursor_overrun :
    is_doc_comment ("/*! x".data) = true ∧
    parse_doc exU = Except.ok (⟨[], none⟩, 2) ∧
    exU.length = 1 := ⟨rfl, rfl, rfl⟩

/-- C10: on the reachable input `/*! @macro M */` followed by an empty
line, the macro capture scans the empty line (it becomes the captured
source), and the bounds-checked form of the `strlen - 1`
last-character lookup on that zero-length line is `none`: the index
−1 lies outside the line's bounds, so the capture's last-character
test is total only through `mac_stop`'s out-of-line `none` branch. -/
theorem c10_empty_line_oob :
    do_file ex10 = Except.ok [⟨[⟨"macro".data, "M".data, []⟩], some [[]]⟩] ∧
    parse_macro_source [([] : Line)] = ([[]], 1) ∧
    last_char_opt ([] : Line) = none := ⟨rfl, rfl, rfl⟩

end Cdoc
